import Mathlib

set_option maxHeartbeats 1000000

/-
Verification of the lattice configuration engine.

The development shallowly embeds the configuration core of the repository:
the YAML value model, the deep-merge engine and the layered resolver from
`src/config.ts`, the zod validation schema from `src/schema.ts`, and the
burst routing selection state machine described by the design document
(the routing engine itself has no implementation in the repository).

YAML/JSON values are modelled by `JValue`; JavaScript objects become
association lists of string keys in insertion order (JavaScript object keys
are unique, which appears as `Nodup` hypotheses where a theorem needs it).
-/

/-- A decoded YAML/JSON value: the value space `deepMerge`, the resolver and
the schema validator operate on. -/
inductive JValue where
  | null : JValue
  | bool : Bool → JValue
  | num : Int → JValue
  | str : String → JValue
  | arr : List JValue → JValue
  | obj : List (String × JValue) → JValue

/-- The keys of a JavaScript object, in insertion order (`Object.keys`). -/
def keysOf (fields : List (String × JValue)) : List String :=
  fields.map Prod.fst

/-- Property access `fields[k]`: the first binding of key `k`, if any. -/
def lookupKey : List (String × JValue) → String → Option JValue
  | [], _ => none
  | (k', v) :: rest, k => if k' = k then some v else lookupKey rest k

/-- Property assignment `result[k] = v`: replaces the first binding of `k`
in place, or appends a new binding when the key is absent. -/
def setKey : List (String × JValue) → String → JValue → List (String × JValue)
  | [], k, v => [(k, v)]
  | (k', v') :: rest, k, v =>
      if k' = k then (k, v) :: rest else (k', v') :: setKey rest k v

/-- The `isPlainObject` type guard of `src/config.ts`: `typeof value ===
"object" && value !== null && !Array.isArray(value)`, returning the fields
on success. -/
def asPlainObject : JValue → Option (List (String × JValue))
  | JValue.obj fields => some fields
  | _ => none

/-- Boolean form of `isPlainObject` (`src/config.ts`). -/
def isPlainObject (v : JValue) : Bool :=
  (asPlainObject v).isSome

/-- Lifts `isPlainObject` to a possibly-absent property (`base[key]` may be
`undefined` in the source, which the guard also rejects). -/
def isPlainObjectOpt : Option JValue → Bool
  | some v => isPlainObject v
  | none => false

mutual

/-- One merge step of `deepMerge` (`src/config.ts`): when both the base
value (if present) and the override value are plain objects the merge
recurses, otherwise the override value replaces the base value wholesale. -/
def mergeValue : Option JValue → JValue → JValue
  | some (JValue.obj baseFields), JValue.obj overrideFields =>
      JValue.obj (mergeFields baseFields baseFields overrideFields)
  | _, overrideVal => overrideVal

/-- The key loop of `deepMerge`: `result` starts as a copy of the base and
each override key is assigned in turn; lookups of the base value use the
original base object, exactly as in the source. -/
def mergeFields (origBase result : List (String × JValue)) :
    List (String × JValue) → List (String × JValue)
  | [] => result
  | (k, overrideVal) :: rest =>
      mergeFields origBase
        (setKey result k (mergeValue (lookupKey origBase k) overrideVal)) rest

end

/-- `deepMerge(base, override)` from `src/config.ts`. -/
def deepMerge (base override : List (String × JValue)) : List (String × JValue) :=
  mergeFields base base override

theorem lookupKey_setKey (fields : List (String × JValue)) (k k' : String) (v : JValue) :
    lookupKey (setKey fields k v) k' =
      if k = k' then some v else lookupKey fields k' := by
  induction fields with
  | nil => simp [setKey, lookupKey]
  | cons hd tl ih =>
      obtain ⟨k0, v0⟩ := hd
      by_cases h0 : k0 = k
      · subst h0
        by_cases h2 : k0 = k' <;> simp [setKey, lookupKey, h2]
      · by_cases h1 : k0 = k' <;> by_cases h2 : k = k' <;>
          simp_all [setKey, lookupKey]

theorem lookupKey_mem_keys {fields : List (String × JValue)} {k : String} {v : JValue}
    (h : lookupKey fields k = some v) : k ∈ keysOf fields := by
  induction fields with
  | nil => simp [lookupKey] at h
  | cons hd tl ih =>
      obtain ⟨k0, v0⟩ := hd
      by_cases h0 : k0 = k
      · subst h0; simp [keysOf]
      · simp only [lookupKey, if_neg h0] at h
        simp [keysOf] at ih ⊢
        exact Or.inr (ih h)

theorem lookupKey_mergeFields (origBase : List (String × JValue)) :
    ∀ (override result : List (String × JValue)),
      (keysOf override).Nodup → ∀ k,
      lookupKey (mergeFields origBase result override) k =
        match lookupKey override k with
        | some ov => some (mergeValue (lookupKey origBase k) ov)
        | none => lookupKey result k := by
  intro override
  induction override with
  | nil =>
      intro result _ k
      simp [mergeFields, lookupKey]
  | cons hd tl ih =>
      intro result hnd k
      obtain ⟨k0, ov0⟩ := hd
      have hcons : keysOf ((k0, ov0) :: tl) = k0 :: keysOf tl := rfl
      rw [hcons] at hnd
      have hk0 : k0 ∉ keysOf tl := (List.nodup_cons.mp hnd).1
      have hnd' : (keysOf tl).Nodup := (List.nodup_cons.mp hnd).2
      simp only [mergeFields]
      rw [ih _ hnd' k]
      by_cases hk : k0 = k
      · subst hk
        have htl : lookupKey tl k0 = none := by
          cases h : lookupKey tl k0 with
          | none => rfl
          | some v => exact absurd (lookupKey_mem_keys h) hk0
        simp [htl, lookupKey, lookupKey_setKey]
      · simp only [lookupKey, if_neg hk]
        cases h : lookupKey tl k with
        | none => simp [h, lookupKey_setKey, if_neg hk]
        | some ov => simp [h]

theorem lookupKey_deepMerge_some (base override : List (String × JValue))
    (hnd : (keysOf override).Nodup) {k : String} {ov : JValue}
    (hov : lookupKey override k = some ov) :
    lookupKey (deepMerge base override) k =
      some (mergeValue (lookupKey base k) ov) := by
  have h := lookupKey_mergeFields base override base hnd k
  rw [hov] at h
  exact h

theorem lookupKey_deepMerge_none (base override : List (String × JValue))
    (hnd : (keysOf override).Nodup) {k : String}
    (hov : lookupKey override k = none) :
    lookupKey (deepMerge base override) k = lookupKey base k := by
  have h := lookupKey_mergeFields base override base hnd k
  rw [hov] at h
  exact h

theorem mergeValue_replace {b : Option JValue} {ov : JValue}
    (h : (isPlainObjectOpt b && isPlainObject ov) = false) :
    mergeValue b ov = ov := by
  cases b with
  | none => cases ov <;> simp [mergeValue]
  | some bv =>
      cases bv <;> cases ov <;>
        simp_all [mergeValue, isPlainObjectOpt, isPlainObject, asPlainObject]

theorem mergeValue_recurse (bf of : List (String × JValue)) :
    mergeValue (some (JValue.obj bf)) (JValue.obj of) =
      JValue.obj (deepMerge bf of) := by
  simp [mergeValue, deepMerge]

/-- C1: `deepMerge` is total over any two plain-object inputs (it is a Lean
function), and for each key of the override it recurses exactly when both the
base value and the override value are plain objects, otherwise the override
value replaces the base value wholesale; in particular a `null` override value
replaces the key's value without deleting the key, and an array override value
replaces any base value entirely. -/
theorem deepMerge_key_semantics (base override : List (String × JValue))
    (k : String) (ov : JValue)
    (hnd : (keysOf override).Nodup)
    (hov : lookupKey override k = some ov) :
    (∀ bf of, lookupKey base k = some (JValue.obj bf) → ov = JValue.obj of →
      lookupKey (deepMerge base override) k = some (JValue.obj (deepMerge bf of)))
    ∧ ((isPlainObjectOpt (lookupKey base k) && isPlainObject ov) = false →
      lookupKey (deepMerge base override) k = some ov)
    ∧ (ov = JValue.null →
      lookupKey (deepMerge base override) k = some JValue.null)
    ∧ (∀ xs, ov = JValue.arr xs →
      lookupKey (deepMerge base override) k = some (JValue.arr xs)) := by
  have hmain := lookupKey_deepMerge_some base override hnd hov
  refine ⟨?_, ?_, ?_, ?_⟩
  · intro bf of hb hof
    subst hof
    rw [hmain, hb, mergeValue_recurse]
  · intro hrep
    rw [hmain, mergeValue_replace hrep]
  · intro h
    subst h
    rw [hmain, mergeValue_replace]
    simp [isPlainObjectOpt, isPlainObject, asPlainObject]
  · intro xs h
    subst h
    rw [hmain, mergeValue_replace]
    simp [isPlainObjectOpt, isPlainObject, asPlainObject]

theorem deepMerge_key_semantics_witness :
    ((keysOf [("a", JValue.null)]).Nodup ∧
       lookupKey [("a", JValue.null)] "a" = some JValue.null) ∧
    lookupKey (deepMerge [("a", JValue.num 1)] [("a", JValue.null)]) "a" =
      some JValue.null := by
  refine ⟨⟨?_, rfl⟩, ?_⟩
  · simp [keysOf]
  · exact (deepMerge_key_semantics [("a", JValue.num 1)] [("a", JValue.null)]
      "a" JValue.null (by simp [keysOf]) rfl).2.2.1 rfl

/-- C2: folding global, project and local configurations in that order with
the merge engine, a key present only in the local layer keeps exactly the
local value, a key present in all three layers takes the local value whenever
that value is not a plain object, and an array-valued local key replaces the
earlier layers' value wholesale rather than being merged element-wise. -/
theorem mergeTriple_precedence (g p l : List (String × JValue))
    (hp : (keysOf p).Nodup) (hl : (keysOf l).Nodup) :
    (∀ k v, lookupKey g k = none → lookupKey p k = none →
      lookupKey l k = some v →
      lookupKey (deepMerge (deepMerge g p) l) k = some v)
    ∧ (∀ k vg vp vl, lookupKey g k = some vg → lookupKey p k = some vp →
      lookupKey l k = some vl → isPlainObject vl = false →
      lookupKey (deepMerge (deepMerge g p) l) k = some vl)
    ∧ (∀ k xs, lookupKey l k = some (JValue.arr xs) →
      lookupKey (deepMerge (deepMerge g p) l) k = some (JValue.arr xs)) := by
  refine ⟨?_, ?_, ?_⟩
  · intro k v hg hpk hlk
    have h1 := lookupKey_deepMerge_some (deepMerge g p) l hl hlk
    have h2 := lookupKey_deepMerge_none g p hp hpk
    rw [h1, h2, hg, mergeValue_replace]
    simp [isPlainObjectOpt]
  · intro k vg vp vl hg hpk hlk hnotobj
    have h1 := lookupKey_deepMerge_some (deepMerge g p) l hl hlk
    rw [h1, mergeValue_replace (by simp [hnotobj])]
  · intro k xs hlk
    have h1 := lookupKey_deepMerge_some (deepMerge g p) l hl hlk
    rw [h1, mergeValue_replace]
    simp [isPlainObject, asPlainObject]

theorem mergeTriple_precedence_witness :
    ((keysOf [("b", JValue.str "p")]).Nodup ∧
       (keysOf [("c", JValue.arr [JValue.str "x"])]).Nodup) ∧
    lookupKey
      (deepMerge (deepMerge [("a", JValue.num 1)] [("b", JValue.str "p")])
        [("c", JValue.arr [JValue.str "x"])]) "c" =
      some (JValue.arr [JValue.str "x"]) := by
  refine ⟨⟨by simp [keysOf], by simp [keysOf]⟩, ?_⟩
  exact (mergeTriple_precedence [("a", JValue.num 1)] [("b", JValue.str "p")]
    [("c", JValue.arr [JValue.str "x"])] (by simp [keysOf])
    (by simp [keysOf])).2.2 "c" [JValue.str "x"] rfl

/-- A validation issue, mirroring the fields of a zod issue that the
repository's error handling relies on: the field path, the issue code, and
for `unrecognized_keys` issues the offending keys. -/
structure Issue where
  path : List String
  code : String
  keys : List String
deriving DecidableEq

/-- Outcome of `schema.safeParse(value)`: the parsed value, or the list of
issues (zod reports every violation, not only the first). -/
inductive PResult where
  | ok (v : JValue)
  | err (issues : List Issue)

/-- A zod schema is embedded as its checking function: given the path from
the root and a decoded value it returns the parsed value or the issues. -/
def Schema : Type :=
  List String → JValue → PResult

def invalidType (path : List String) : List Issue :=
  [Issue.mk path "invalid_type" []]

/-- Embeds `z.string()`. -/
def zString : Schema := fun path v =>
  match v with
  | JValue.str s => PResult.ok (JValue.str s)
  | _ => PResult.err (invalidType path)

/-- Embeds `z.string().min(1)`. -/
def zStringMin1 : Schema := fun path v =>
  match v with
  | JValue.str s =>
      if s.length < 1 then PResult.err [Issue.mk path "too_small" []]
      else PResult.ok (JValue.str s)
  | _ => PResult.err (invalidType path)

/-- Embeds `z.boolean()`. -/
def zBoolean : Schema := fun path v =>
  match v with
  | JValue.bool b => PResult.ok (JValue.bool b)
  | _ => PResult.err (invalidType path)

/-- Embeds `z.number().positive()`; numbers are modelled as integers, which
is all the configuration schema's claims depend on. -/
def zPositiveNumber : Schema := fun path v =>
  match v with
  | JValue.num n =>
      if 0 < n then PResult.ok (JValue.num n)
      else PResult.err [Issue.mk path "too_small" []]
  | _ => PResult.err (invalidType path)

/-- Embeds `z.number().nonnegative()`. -/
def zNonnegativeNumber : Schema := fun path v =>
  match v with
  | JValue.num n =>
      if 0 ≤ n then PResult.ok (JValue.num n)
      else PResult.err [Issue.mk path "too_small" []]
  | _ => PResult.err (invalidType path)

/-- Embeds `z.number().int().positive()` (integrality is immediate in the
integer number model). -/
def zPositiveInt : Schema :=
  zPositiveNumber

/-- Embeds `z.literal(lit)` for a string literal. -/
def zLiteral (lit : String) : Schema := fun path v =>
  match v with
  | JValue.str s =>
      if s = lit then PResult.ok (JValue.str s)
      else PResult.err [Issue.mk path "invalid_literal" []]
  | _ => PResult.err [Issue.mk path "invalid_literal" []]

/-- Embeds `z.enum(options)`. -/
def zEnum (options : List String) : Schema := fun path v =>
  match v with
  | JValue.str s =>
      if options.contains s then PResult.ok (JValue.str s)
      else PResult.err [Issue.mk path "invalid_enum_value" []]
  | _ => PResult.err (invalidType path)

/-- Embeds `z.unknown()`: accepts anything. -/
def zUnknown : Schema := fun _ v =>
  PResult.ok v

def collectErrs : List PResult → List Issue
  | [] => []
  | PResult.ok _ :: rest => collectErrs rest
  | PResult.err is :: rest => is ++ collectErrs rest

def okValue : PResult → JValue
  | PResult.ok v => v
  | PResult.err _ => JValue.null

/-- Embeds `z.array(elem)` with an optional `.min(minLen)` bound: every
element is validated at its index path and a `too_small` issue is produced
when the array is shorter than the bound. -/
def zArray (elem : Schema) (minLen : Nat) : Schema := fun path v =>
  match v with
  | JValue.arr xs =>
      let results := xs.enum.map (fun p => elem (path ++ [toString p.1]) p.2)
      let sizeIssues :=
        if xs.length < minLen then [Issue.mk path "too_small" []] else []
      let allIssues := collectErrs results ++ sizeIssues
      if allIssues.isEmpty then PResult.ok (JValue.arr (results.map okValue))
      else PResult.err allIssues
  | _ => PResult.err (invalidType path)

/-- Embeds `z.record(z.string(), val)`: an object whose values are all
validated, with arbitrary string keys. -/
def zRecord (val : Schema) : Schema := fun path v =>
  match v with
  | JValue.obj fields =>
      if (collectErrs (fields.map (fun p => val (path ++ [p.1]) p.2))).isEmpty then
        PResult.ok (JValue.obj
          (fields.map (fun p => (p.1, okValue (val (path ++ [p.1]) p.2)))))
      else
        PResult.err (collectErrs (fields.map (fun p => val (path ++ [p.1]) p.2)))
  | _ => PResult.err (invalidType path)

/-- One declared property of a `z.object(...)` shape. -/
structure FieldSpec where
  fname : String
  required : Bool
  fcheck : Schema

/-- The issues one declared property contributes: a missing required field
yields an `invalid_type` issue at its path (zod's "Required"), a present
field contributes the issues of its own schema, an absent optional field
contributes nothing. -/
def fieldIssues (fields : List (String × JValue)) (path : List String)
    (spec : FieldSpec) : List Issue :=
  match lookupKey fields spec.fname with
  | none =>
      if spec.required then [Issue.mk (path ++ [spec.fname]) "invalid_type" []]
      else []
  | some v =>
      match spec.fcheck (path ++ [spec.fname]) v with
      | PResult.ok _ => []
      | PResult.err is => is

/-- The parsed binding one declared property contributes on success. -/
def fieldEntry (fields : List (String × JValue)) (path : List String)
    (spec : FieldSpec) : List (String × JValue) :=
  match lookupKey fields spec.fname with
  | none => []
  | some v =>
      match spec.fcheck (path ++ [spec.fname]) v with
      | PResult.ok pv => [(spec.fname, pv)]
      | PResult.err _ => []

/-- Validates the declared properties of an object shape, collecting the
issues of every field (zod reports all of them) and the parsed bindings. -/
def checkFields (fields : List (String × JValue)) (path : List String)
    (specs : List FieldSpec) : List Issue × List (String × JValue) :=
  ((specs.map (fieldIssues fields path)).flatten,
   (specs.map (fieldEntry fields path)).flatten)

/-- The input keys that are not declared by the shape (zod `.strict()`
reports them in an `unrecognized_keys` issue). -/
def unknownKeys (specs : List FieldSpec) (fields : List (String × JValue)) :
    List String :=
  (keysOf fields).filter (fun k => !(specs.map FieldSpec.fname).contains k)

/-- The issue list contributed by zod `.strict()`: an `unrecognized_keys`
issue listing the undeclared input keys, when there are any. -/
def strictIssues (specs : List FieldSpec) (strict : Bool) (path : List String)
    (fields : List (String × JValue)) : List Issue :=
  if strict then
    if (unknownKeys specs fields).isEmpty then []
    else [Issue.mk path "unrecognized_keys" (unknownKeys specs fields)]
  else []

/-- Validates an object against a shape: declared-field issues and (for a
strict shape) the `unrecognized_keys` issue are collected; success returns
the object of parsed declared fields (zod strips undeclared keys when the
shape is not strict). -/
def checkObjectFields (specs : List FieldSpec) (strict : Bool)
    (path : List String) (fields : List (String × JValue)) : PResult :=
  if ((checkFields fields path specs).1 ++
      strictIssues specs strict path fields).isEmpty then
    PResult.ok (JValue.obj (checkFields fields path specs).2)
  else
    PResult.err ((checkFields fields path specs).1 ++
      strictIssues specs strict path fields)

/-- Embeds `z.object(shape)` (with `.strict()` when `strict` is set). -/
def zObject (specs : List FieldSpec) (strict : Bool) : Schema := fun path v =>
  match v with
  | JValue.obj fields => checkObjectFields specs strict path fields
  | _ => PResult.err (invalidType path)

/-- Embeds `z.union([a, b])`: the first structurally matching option wins;
when both fail zod reports an `invalid_union` issue. -/
def zUnion2 (a b : Schema) : Schema := fun path v =>
  match a path v with
  | PResult.ok pv => PResult.ok pv
  | PResult.err _ =>
      match b path v with
      | PResult.ok pv => PResult.ok pv
      | PResult.err _ => PResult.err [Issue.mk path "invalid_union" []]

def isWordChar (c : Char) : Bool :=
  c.isAlphanum || c = '_'

def isNameChar (c : Char) : Bool :=
  isWordChar c || c = '-'

def isVersionChar (c : Char) : Bool :=
  isWordChar c || c = '.' || c = '-'

/-- Matches the first alternative of the `PluginRef` regular expression,
`@?[\w-]+\/?[\w-]*@[\w.-]+`: since none of the character classes admit `@`,
a match decomposes at the unique non-leading `@` into a package part (word
characters and dashes with at most one `/`, not at position zero) and a
non-empty version part. -/
def nameVersionMatch (cs : List Char) : Bool :=
  let rest :=
    match cs with
    | '@' :: t => t
    | _ => cs
  match rest.splitOn '@' with
  | [l, ver] =>
      decide (l ≠ []) && decide (ver ≠ []) && ver.all isVersionChar &&
      l.all (fun c => isNameChar c || c = '/') &&
      decide ((l.filter (fun c => c = '/')).length ≤ 1) &&
      (match l with
       | c :: _ => decide (c ≠ '/')
       | [] => false)
  | _ => false

/-- Matches the second alternative of the `PluginRef` regular expression,
`github:[\w-]+\/[\w-]+@[\w.-]+`. -/
def githubMatch (cs : List Char) : Bool :=
  match cs with
  | 'g' :: 'i' :: 't' :: 'h' :: 'u' :: 'b' :: ':' :: rest =>
      (match rest.splitOn '@' with
       | [l, ver] =>
           decide (ver ≠ []) && ver.all isVersionChar &&
           (match l.splitOn '/' with
            | [u, r] =>
                decide (u ≠ []) && decide (r ≠ []) &&
                u.all isNameChar && r.all isNameChar
            | _ => false)
       | _ => false)
  | _ => false

/-- Matches the third alternative of the `PluginRef` regular expression,
`file:.+` (`.` does not match line terminators). -/
def fileMatch (cs : List Char) : Bool :=
  match cs with
  | 'f' :: 'i' :: 'l' :: 'e' :: ':' :: rest =>
      decide (rest ≠ []) && rest.all (fun c => c ≠ '\n' && c ≠ '\r')
  | _ => false

def pluginRefMatches (s : String) : Bool :=
  nameVersionMatch s.data || githubMatch s.data || fileMatch s.data

/-- Embeds `PluginRef = z.string().regex(...)` from `src/schema.ts`. -/
def PluginRef : Schema := fun path v =>
  match v with
  | JValue.str s =>
      if pluginRefMatches s then PResult.ok (JValue.str s)
      else PResult.err [Issue.mk path "invalid_string" []]
  | _ => PResult.err (invalidType path)

/-- Embeds `RoutingStrategyFallback` from `src/schema.ts`. -/
def RoutingStrategyFallbackFields : List FieldSpec :=
  [⟨"strategy", true, zLiteral "fallback"⟩,
   ⟨"models", true, zArray zString 1⟩]

def RoutingStrategyFallback : Schema :=
  zObject RoutingStrategyFallbackFields false

/-- Embeds `RoutingStrategyPattern` from `src/schema.ts`. -/
def RoutingStrategyPatternFields : List FieldSpec :=
  [⟨"strategy", true, zLiteral "pattern"⟩,
   ⟨"pattern", true, zArray zString 1⟩,
   ⟨"on_unavailable", false, zEnum ["next", "retry", "fallback"]⟩,
   ⟨"fallback_models", false, zArray zString 0⟩]

def RoutingStrategyPattern : Schema :=
  zObject RoutingStrategyPatternFields false

/-- Embeds `RoutingStrategyWeighted` from `src/schema.ts`. -/
def RoutingStrategyWeightedFields : List FieldSpec :=
  [⟨"strategy", true, zLiteral "weighted"⟩,
   ⟨"weights", true, zRecord zPositiveNumber⟩,
   ⟨"track", false, zBoolean⟩]

def RoutingStrategyWeighted : Schema :=
  zObject RoutingStrategyWeightedFields false

/-- Embeds `RoutingStrategyRoundRobin` from `src/schema.ts`. -/
def RoutingStrategyRoundRobinFields : List FieldSpec :=
  [⟨"strategy", true, zLiteral "round_robin"⟩,
   ⟨"models", true, zArray zString 1⟩]

def RoutingStrategyRoundRobin : Schema :=
  zObject RoutingStrategyRoundRobinFields false

/-- Embeds `RoutingStrategyBurst` from `src/schema.ts`. -/
def RoutingStrategyBurstFields : List FieldSpec :=
  [⟨"strategy", true, zLiteral "burst"⟩,
   ⟨"iterate", true, zString⟩,
   ⟨"final", true, zString⟩,
   ⟨"burst_size", true, zPositiveInt⟩,
   ⟨"final_trigger", false, zString⟩]

def RoutingStrategyBurst : Schema :=
  zObject RoutingStrategyBurstFields false

/-- Embeds `RoutingConfig = z.discriminatedUnion("strategy", [...])` from
`src/schema.ts`: the `strategy` discriminator selects the variant; a missing
or unknown discriminator yields an `invalid_union_discriminator` issue. -/
def RoutingConfig : Schema := fun path v =>
  match v with
  | JValue.obj fields =>
      match lookupKey fields "strategy" with
      | some (JValue.str "fallback") => RoutingStrategyFallback path v
      | some (JValue.str "pattern") => RoutingStrategyPattern path v
      | some (JValue.str "weighted") => RoutingStrategyWeighted path v
      | some (JValue.str "round_robin") => RoutingStrategyRoundRobin path v
      | some (JValue.str "burst") => RoutingStrategyBurst path v
      | _ =>
          PResult.err
            [Issue.mk (path ++ ["strategy"]) "invalid_union_discriminator" []]
  | _ => PResult.err (invalidType path)

/-- Embeds `SimpleRouting = z.array(z.string()).min(1)`. -/
def SimpleRouting : Schema :=
  zArray zString 1

/-- Embeds `AgentRouting = z.union([SimpleRouting, RoutingConfig])`. -/
def AgentRouting : Schema :=
  zUnion2 SimpleRouting RoutingConfig

/-- Embeds `VcsPreset` from `src/schema.ts`. -/
def VcsPreset : Schema :=
  zEnum ["jj-workspace", "jj-checkpoint", "git-stash", "none"]

/-- Embeds `VcsConfigOptions` from `src/schema.ts`. -/
def VcsConfigOptions : Schema :=
  zObject
    [⟨"workspace_dir", false, zString⟩,
     ⟨"gate_enforcement", false, zBoolean⟩,
     ⟨"auto_cleanup", false, zBoolean⟩,
     ⟨"checkpoint_message", false, zString⟩,
     ⟨"commit_message", false, zString⟩] false

/-- Embeds `VcsSchema` from `src/schema.ts`. -/
def VcsSchema : Schema :=
  zObject
    [⟨"preset", true, VcsPreset⟩,
     ⟨"config", false, VcsConfigOptions⟩] false

/-- Embeds `ProviderSchema` from `src/schema.ts`. -/
def ProviderSchema : Schema :=
  zObject
    [⟨"env", false, zString⟩,
     ⟨"auth", false, zString⟩,
     ⟨"tier", false, zString⟩,
     ⟨"local_budget", false, zUnion2 zNonnegativeNumber (zLiteral "unlimited")⟩,
     ⟨"models", false, zArray zString 0⟩] false

/-- Embeds `DefaultsSchema` from `src/schema.ts`. -/
def DefaultsSchema : Schema :=
  zObject
    [⟨"agents_dir", false, zString⟩,
     ⟨"routing", false, AgentRouting⟩] false

/-- Embeds `AgentSchema` from `src/schema.ts`. -/
def AgentSchema : Schema :=
  zObject
    [⟨"path", true, zString⟩,
     ⟨"description", false, zString⟩,
     ⟨"triggers", false, zArray zString 0⟩,
     ⟨"routing", false, AgentRouting⟩] false

/-- Embeds `McpServerSchema` from `src/schema.ts`. -/
def McpServerSchema : Schema :=
  zObject
    [⟨"enabled", false, zBoolean⟩,
     ⟨"description", false, zString⟩,
     ⟨"command", false, zString⟩,
     ⟨"env", false, zRecord zString⟩] false

/-- Embeds `CommandSchema` from `src/schema.ts`. -/
def CommandSchema : Schema :=
  zObject
    [⟨"description", false, zString⟩,
     ⟨"action", true, zString⟩] false

/-- Embeds `HookActionSchema` from `src/schema.ts`. -/
def HookActionSchema : Schema :=
  zObject
    [⟨"action", true, zString⟩,
     ⟨"when", false, zString⟩,
     ⟨"notify", false, zBoolean⟩,
     ⟨"message", false, zString⟩,
     ⟨"channel", false, zString⟩] false

/-- Embeds `HOOK_EVENTS` from `src/schema.ts`. -/
def HOOK_EVENTS : List String :=
  ["pre_agent", "post_agent", "on_rate_limit", "on_budget_exceeded", "on_error"]

/-- Embeds `HooksSchema` from `src/schema.ts`: one optional hook-action array
per recognized event, `.strict()`. -/
def HooksSchemaFields : List FieldSpec :=
  [⟨"pre_agent", false, zArray HookActionSchema 0⟩,
   ⟨"post_agent", false, zArray HookActionSchema 0⟩,
   ⟨"on_rate_limit", false, zArray HookActionSchema 0⟩,
   ⟨"on_budget_exceeded", false, zArray HookActionSchema 0⟩,
   ⟨"on_error", false, zArray HookActionSchema 0⟩]

def HooksSchema : Schema :=
  zObject HooksSchemaFields true

/-- Embeds `LatticeConfigSchema` from `src/schema.ts`: the closed top-level
shape, `.strict()`, with `name` the only required field. -/
def LatticeConfigFields : List FieldSpec :=
  [⟨"name", true, zStringMin1⟩,
   ⟨"description", false, zString⟩,
   ⟨"version", false, zString⟩,
   ⟨"author", false, zString⟩,
   ⟨"vcs", false, VcsSchema⟩,
   ⟨"plugins", false, zArray PluginRef 0⟩,
   ⟨"providers", false, zRecord ProviderSchema⟩,
   ⟨"defaults", false, DefaultsSchema⟩,
   ⟨"agents", false, zRecord AgentSchema⟩,
   ⟨"plugin_config", false, zRecord (zRecord zUnknown)⟩,
   ⟨"mcp", false, zRecord McpServerSchema⟩,
   ⟨"commands", false, zRecord CommandSchema⟩,
   ⟨"hooks", false, HooksSchema⟩]

def LatticeConfigSchema : Schema :=
  zObject LatticeConfigFields true

/-- Embeds `LatticeConfigSchema.safeParse`, applied at the root path. -/
def latticeSafeParse (v : JValue) : PResult :=
  LatticeConfigSchema [] v

theorem isEmpty_false_of_ne_nil {α : Type} {l : List α} (h : l ≠ []) :
    l.isEmpty = false := by
  cases l with
  | nil => exact absurd rfl h
  | cons a t => rfl

theorem checkFields_fst_mem (fields : List (String × JValue))
    (path : List String) {spec : FieldSpec} {specs : List FieldSpec}
    (hmem : spec ∈ specs) {i : Issue}
    (hi : i ∈ fieldIssues fields path spec) :
    i ∈ (checkFields fields path specs).1 := by
  exact List.mem_flatten_of_mem (List.mem_map_of_mem _ hmem) hi

theorem checkFields_fst_nil_all (fields : List (String × JValue))
    (path : List String) {specs : List FieldSpec}
    (hnil : (checkFields fields path specs).1 = []) {spec : FieldSpec}
    (hmem : spec ∈ specs) :
    fieldIssues fields path spec = [] := by
  have h := List.flatten_eq_nil_iff.mp hnil
  exact h _ (List.mem_map_of_mem _ hmem)

theorem fieldIssues_required_missing {fields : List (String × JValue)}
    {path : List String} {spec : FieldSpec}
    (hreq : spec.required = true)
    (hl : lookupKey fields spec.fname = none) :
    fieldIssues fields path spec =
      [Issue.mk (path ++ [spec.fname]) "invalid_type" []] := by
  simp [fieldIssues, hl, hreq]

theorem fieldIssues_present_err {fields : List (String × JValue)}
    {path : List String} {spec : FieldSpec} {v : JValue} {is : List Issue}
    (hl : lookupKey fields spec.fname = some v)
    (hp : spec.fcheck (path ++ [spec.fname]) v = PResult.err is) :
    fieldIssues fields path spec = is := by
  simp [fieldIssues, hl, hp]

theorem checkObjectFields_err_of_issue (specs : List FieldSpec) (strict : Bool)
    (path : List String) (fields : List (String × JValue)) {i : Issue}
    (h : i ∈ (checkFields fields path specs).1) :
    ∃ is, checkObjectFields specs strict path fields = PResult.err is ∧
      i ∈ is := by
  have hne : (checkFields fields path specs).1 ++
      strictIssues specs strict path fields ≠ [] := by
    intro hc
    rw [(List.append_eq_nil.mp hc).1] at h
    simp at h
  exact ⟨(checkFields fields path specs).1 ++ strictIssues specs strict path fields,
    by simp [checkObjectFields, isEmpty_false_of_ne_nil hne],
    List.mem_append_left _ h⟩

theorem checkObjectFields_unknown (specs : List FieldSpec) (path : List String)
    (fields : List (String × JValue)) {k : String}
    (hk : k ∈ keysOf fields)
    (hc : (specs.map FieldSpec.fname).contains k = false) :
    ∃ is, checkObjectFields specs true path fields = PResult.err is ∧
      Issue.mk path "unrecognized_keys" (unknownKeys specs fields) ∈ is ∧
      k ∈ unknownKeys specs fields := by
  have hpred : (!(specs.map FieldSpec.fname).contains k) = true := by
    rw [hc]; rfl
  have hmemU : k ∈ unknownKeys specs fields :=
    List.mem_filter.mpr ⟨hk, hpred⟩
  have hneU : unknownKeys specs fields ≠ [] := by
    intro hu
    rw [hu] at hmemU
    simp at hmemU
  have hstrict : strictIssues specs true path fields =
      [Issue.mk path "unrecognized_keys" (unknownKeys specs fields)] := by
    simp [strictIssues, isEmpty_false_of_ne_nil hneU]
  have hne : (checkFields fields path specs).1 ++
      strictIssues specs true path fields ≠ [] := by
    rw [hstrict]
    simp
  exact ⟨(checkFields fields path specs).1 ++ strictIssues specs true path fields,
    by simp [checkObjectFields, isEmpty_false_of_ne_nil hne],
    by rw [hstrict]; exact List.mem_append_right _ (List.mem_singleton.mpr rfl),
    hmemU⟩

theorem checkObjectFields_ok_fst_nil {specs : List FieldSpec} {strict : Bool}
    {path : List String} {fields : List (String × JValue)} {pv : JValue}
    (h : checkObjectFields specs strict path fields = PResult.ok pv) :
    (checkFields fields path specs).1 = [] := by
  revert h
  unfold checkObjectFields
  by_cases he : ((checkFields fields path specs).1 ++
      strictIssues specs strict path fields).isEmpty = true
  · intro _
    exact (List.append_eq_nil.mp (List.isEmpty_iff.mp he)).1
  · simp only [Bool.not_eq_true] at he
    simp [he]

/-- C3: validation rejects any input with a top-level key outside the
declared whitelist and any key of the hooks map that is not one of the five
recognized hook events; the failure carries an `unrecognized_keys` issue
naming the offending key. -/
theorem lattice_rejects_unknown_keys :
    (∀ fields k, k ∈ keysOf fields →
      (LatticeConfigFields.map FieldSpec.fname).contains k = false →
      ∃ is, latticeSafeParse (JValue.obj fields) = PResult.err is ∧
        ∃ i, i ∈ is ∧ i.code = "unrecognized_keys" ∧ k ∈ i.keys)
    ∧ (∀ fields hfields hk,
      lookupKey fields "hooks" = some (JValue.obj hfields) →
      hk ∈ keysOf hfields →
      (HooksSchemaFields.map FieldSpec.fname).contains hk = false →
      ∃ is, latticeSafeParse (JValue.obj fields) = PResult.err is ∧
        ∃ i, i ∈ is ∧ i.code = "unrecognized_keys" ∧ hk ∈ i.keys) := by
  constructor
  · intro fields k hk hc
    obtain ⟨is, heq, hmem, hkk⟩ :=
      checkObjectFields_unknown LatticeConfigFields [] fields hk hc
    exact ⟨is, heq, ⟨_, hmem, rfl, hkk⟩⟩
  · intro fields hfields hk hlook hmemk hc
    obtain ⟨is', heq', hmem', hkk'⟩ :=
      checkObjectFields_unknown HooksSchemaFields ["hooks"] hfields hmemk hc
    have hspec : (⟨"hooks", false, HooksSchema⟩ : FieldSpec) ∈
        LatticeConfigFields := by
      simp [LatticeConfigFields]
    have hcheck : (⟨"hooks", false, HooksSchema⟩ : FieldSpec).fcheck
        ([] ++ ["hooks"]) (JValue.obj hfields) = PResult.err is' := heq'
    have hfi := @fieldIssues_present_err fields []
      ⟨"hooks", false, HooksSchema⟩ (JValue.obj hfields) is' hlook hcheck
    have hi : Issue.mk ["hooks"] "unrecognized_keys"
        (unknownKeys HooksSchemaFields hfields) ∈
        (checkFields fields [] LatticeConfigFields).1 := by
      apply checkFields_fst_mem fields [] hspec
      rw [hfi]
      exact hmem'
    obtain ⟨is, heq, hmemtop⟩ :=
      checkObjectFields_err_of_issue LatticeConfigFields true [] fields hi
    exact ⟨is, heq, ⟨_, hmemtop, rfl, hkk'⟩⟩

theorem lattice_rejects_unknown_keys_witness :
    (("unknown_field" ∈
        keysOf [("name", JValue.str "test"), ("unknown_field", JValue.str "value")] ∧
      (LatticeConfigFields.map FieldSpec.fname).contains "unknown_field" = false) ∧
      ∃ is, latticeSafeParse
        (JValue.obj [("name", JValue.str "test"),
          ("unknown_field", JValue.str "value")]) = PResult.err is ∧
        ∃ i, i ∈ is ∧ i.code = "unrecognized_keys" ∧ "unknown_field" ∈ i.keys) ∧
    ∃ is, latticeSafeParse
      (JValue.obj [("name", JValue.str "t"),
        ("hooks", JValue.obj [("invalid_event", JValue.arr [])])]) =
        PResult.err is ∧
      ∃ i, i ∈ is ∧ i.code = "unrecognized_keys" ∧ "invalid_event" ∈ i.keys := by
  refine ⟨⟨⟨?_, ?_⟩, ?_⟩, ?_⟩
  · simp [keysOf]
  · rfl
  · exact lattice_rejects_unknown_keys.1 _ "unknown_field" (by simp [keysOf]) rfl
  · exact lattice_rejects_unknown_keys.2 _ _ "invalid_event" rfl
      (by simp [keysOf]) rfl

theorem string_ne_empty_length {s : String} (hs : s ≠ "") : ¬ s.length < 1 := by
  intro hc
  apply hs
  have h0 : s.data.length = 0 := Nat.lt_one_iff.mp hc
  have hnil : s.data = [] := List.length_eq_zero.mp h0
  cases s with
  | mk d =>
      simp only at hnil
      subst hnil
      rfl

/-- C4: an object that is exactly a non-empty `name` validates successfully
with every optional field absent, and an object missing `name` fails
validation with an issue at path `name`. -/
theorem lattice_name_contract :
    (∀ s, s ≠ "" →
      latticeSafeParse (JValue.obj [("name", JValue.str s)]) =
        PResult.ok (JValue.obj [("name", JValue.str s)]))
    ∧ (∀ fields, lookupKey fields "name" = none →
      ∃ is, latticeSafeParse (JValue.obj fields) = PResult.err is ∧
        Issue.mk ["name"] "invalid_type" [] ∈ is) := by
  constructor
  · intro s hs
    have hlen := string_ne_empty_length hs
    simp [latticeSafeParse, LatticeConfigSchema, zObject, checkObjectFields,
      strictIssues, unknownKeys, keysOf, LatticeConfigFields, checkFields,
      fieldIssues, fieldEntry, lookupKey, zStringMin1, hlen]
  · intro fields hnone
    have hspec : (⟨"name", true, zStringMin1⟩ : FieldSpec) ∈
        LatticeConfigFields := by
      simp [LatticeConfigFields]
    have hfi := @fieldIssues_required_missing fields []
      ⟨"name", true, zStringMin1⟩ rfl hnone
    have hi : Issue.mk ["name"] "invalid_type" [] ∈
        (checkFields fields [] LatticeConfigFields).1 := by
      apply checkFields_fst_mem fields [] hspec
      rw [hfi]
      exact List.mem_singleton.mpr rfl
    obtain ⟨is, heq, hmem⟩ :=
      checkObjectFields_err_of_issue LatticeConfigFields true [] fields hi
    exact ⟨is, heq, hmem⟩

theorem lattice_name_contract_witness :
    ("test" ≠ "" ∧
      latticeSafeParse (JValue.obj [("name", JValue.str "test")]) =
        PResult.ok (JValue.obj [("name", JValue.str "test")])) ∧
    (lookupKey [("description", JValue.str "d")] "name" = none ∧
      ∃ is, latticeSafeParse (JValue.obj [("description", JValue.str "d")]) =
        PResult.err is ∧ Issue.mk ["name"] "invalid_type" [] ∈ is) := by
  refine ⟨⟨?_, ?_⟩, ⟨?_, ?_⟩⟩
  · intro h
    exact absurd h (by decide)
  · exact lattice_name_contract.1 "test" (by decide)
  · rfl
  · exact lattice_name_contract.2 [("description", JValue.str "d")] rfl

theorem ne_nil_of_isEmpty_false {α : Type} {l : List α} (h : l.isEmpty = false) :
    l ≠ [] := by
  cases l with
  | nil => simp at h
  | cons a t => simp

theorem collectErrs_nil_all {rs : List PResult} (h : collectErrs rs = []) :
    ∀ r ∈ rs, ∀ is, r = PResult.err is → is = [] := by
  induction rs with
  | nil =>
      intro r hr
      simp at hr
  | cons r0 rest ih =>
      intro r hr is hris
      cases r0 with
      | ok v =>
          simp only [collectErrs] at h
          rcases List.mem_cons.mp hr with h0 | h0
          · rw [h0] at hris
            cases hris
          · exact ih h _ h0 is hris
      | err is0 =>
          simp only [collectErrs] at h
          have hsplit := List.append_eq_nil.mp h
          rcases List.mem_cons.mp hr with h0 | h0
          · rw [h0] at hris
            cases hris
            exact hsplit.1
          · exact ih hsplit.2 _ h0 is hris

theorem collectErrs_ne_nil_of_mem {rs : List PResult} {is : List Issue}
    (hmem : PResult.err is ∈ rs) (hne : is ≠ []) : collectErrs rs ≠ [] :=
  fun h => hne (collectErrs_nil_all h _ hmem is rfl)

theorem zArray_ok_min {e : Schema} {m : Nat} {path : List String}
    {xs : List JValue} {pv : JValue}
    (h : zArray e m path (JValue.arr xs) = PResult.ok pv) :
    ¬ xs.length < m := by
  intro hlt
  simp only [zArray, hlt, if_true] at h
  have hne : collectErrs (xs.enum.map fun p => e (path ++ [toString p.1]) p.2) ++
      [Issue.mk path "too_small" []] ≠ [] := by simp
  rw [isEmpty_false_of_ne_nil hne] at h
  simp at h

theorem zArray_err_ne_nil {e : Schema} {m : Nat} {path : List String}
    {v : JValue} {is : List Issue}
    (h : zArray e m path v = PResult.err is) : is ≠ [] := by
  cases v with
  | arr xs =>
      simp only [zArray] at h
      by_cases he : (collectErrs (xs.enum.map fun p => e (path ++ [toString p.1]) p.2) ++
          (if xs.length < m then [Issue.mk path "too_small" []] else [])).isEmpty = true
      · rw [if_pos he] at h
        cases h
      · simp only [Bool.not_eq_true] at he
        rw [if_neg (by simp [he])] at h
        cases h
        exact ne_nil_of_isEmpty_false he
  | null => simp only [zArray] at h; cases h; simp [invalidType]
  | bool b => simp only [zArray] at h; cases h; simp [invalidType]
  | num n => simp only [zArray] at h; cases h; simp [invalidType]
  | str s => simp only [zArray] at h; cases h; simp [invalidType]
  | obj fields => simp only [zArray] at h; cases h; simp [invalidType]

theorem zRecord_ok_each {val : Schema} {path : List String}
    {ws : List (String × JValue)} {pv : JValue}
    (h : zRecord val path (JValue.obj ws) = PResult.ok pv) :
    ∀ kv ∈ ws, ∀ is, val (path ++ [kv.1]) kv.2 = PResult.err is → is = [] := by
  intro kv hkv is hverr
  simp only [zRecord] at h
  by_cases he : (collectErrs (ws.map fun p => val (path ++ [p.1]) p.2)).isEmpty = true
  · have hnil := List.isEmpty_iff.mp he
    have hmem' : val (path ++ [kv.1]) kv.2 ∈
        ws.map (fun p => val (path ++ [p.1]) p.2) :=
      List.mem_map_of_mem _ hkv
    exact collectErrs_nil_all hnil _ hmem' is hverr
  · simp only [Bool.not_eq_true] at he
    rw [if_neg (by simp [he])] at h
    cases h

theorem zRecord_err_ne_nil {val : Schema} {path : List String}
    {v : JValue} {is : List Issue}
    (h : zRecord val path v = PResult.err is) : is ≠ [] := by
  cases v with
  | obj ws =>
      simp only [zRecord] at h
      by_cases he : (collectErrs (ws.map fun p => val (path ++ [p.1]) p.2)).isEmpty = true
      · rw [if_pos he] at h
        cases h
      · simp only [Bool.not_eq_true] at he
        rw [if_neg (by simp [he])] at h
        cases h
        exact ne_nil_of_isEmpty_false he
  | null => simp only [zRecord] at h; cases h; simp [invalidType]
  | bool b => simp only [zRecord] at h; cases h; simp [invalidType]
  | num n => simp only [zRecord] at h; cases h; simp [invalidType]
  | str s => simp only [zRecord] at h; cases h; simp [invalidType]
  | arr xs => simp only [zRecord] at h; cases h; simp [invalidType]

theorem zRecord_err_of_val {val : Schema} {path : List String}
    {ws : List (String × JValue)} {kv : String × JValue} {is : List Issue}
    (hkv : kv ∈ ws) (hv : val (path ++ [kv.1]) kv.2 = PResult.err is)
    (hne : is ≠ []) :
    ∃ is', zRecord val path (JValue.obj ws) = PResult.err is' := by
  have hmem' : PResult.err is ∈ ws.map (fun p => val (path ++ [p.1]) p.2) := by
    have hm := List.mem_map_of_mem (fun p => val (path ++ [p.1]) p.2) hkv
    simpa [hv] using hm
  have hcne := collectErrs_ne_nil_of_mem hmem' hne
  refine ⟨collectErrs (ws.map (fun p => val (path ++ [p.1]) p.2)), ?_⟩
  simp only [zRecord]
  rw [isEmpty_false_of_ne_nil hcne]
  simp

theorem zPositiveNumber_ok {path : List String} {w pv : JValue}
    (h : zPositiveNumber path w = PResult.ok pv) :
    ∃ n, w = JValue.num n ∧ 0 < n := by
  cases w with
  | num n =>
      by_cases hn : (0 : Int) < n
      · exact ⟨n, rfl, hn⟩
      · simp only [zPositiveNumber, if_neg hn] at h
        cases h
  | null => cases h
  | bool b => cases h
  | str s => cases h
  | arr xs => cases h
  | obj fields => cases h

theorem zPositiveNumber_err_ne_nil {path : List String} {w : JValue}
    {is : List Issue} (h : zPositiveNumber path w = PResult.err is) :
    is ≠ [] := by
  cases w with
  | num n =>
      by_cases hn : (0 : Int) < n
      · simp only [zPositiveNumber, if_pos hn] at h
        cases h
      · simp only [zPositiveNumber, if_neg hn] at h
        cases h
        simp
  | null => cases h; simp [invalidType]
  | bool b => cases h; simp [invalidType]
  | str s => cases h; simp [invalidType]
  | arr xs => cases h; simp [invalidType]
  | obj fields => cases h; simp [invalidType]

theorem zUnion2_ok {a b : Schema} {path : List String} {v pv : JValue}
    (h : zUnion2 a b path v = PResult.ok pv) :
    a path v = PResult.ok pv ∨
      (∃ is, a path v = PResult.err is ∧ b path v = PResult.ok pv) := by
  revert h
  simp only [zUnion2]
  cases ha : a path v with
  | ok pv' =>
      intro h
      cases h
      exact Or.inl rfl
  | err is1 =>
      cases hb : b path v with
      | ok pv' =>
          intro h
          cases h
          exact Or.inr ⟨is1, rfl, rfl⟩
      | err is2 =>
          intro h
          cases h

theorem zUnion2_err {a b : Schema} {path : List String} {v : JValue}
    {is1 is2 : List Issue}
    (ha : a path v = PResult.err is1) (hb : b path v = PResult.err is2) :
    zUnion2 a b path v = PResult.err [Issue.mk path "invalid_union" []] := by
  simp [zUnion2, ha, hb]

theorem checkObjectFields_ok_field_ok {specs : List FieldSpec} {strict : Bool}
    {path : List String} {fields : List (String × JValue)} {pv : JValue}
    (h : checkObjectFields specs strict path fields = PResult.ok pv)
    {spec : FieldSpec} {v : JValue}
    (hmem : spec ∈ specs) (hl : lookupKey fields spec.fname = some v)
    (hne : ∀ is, spec.fcheck (path ++ [spec.fname]) v = PResult.err is → is ≠ []) :
    ∃ pv', spec.fcheck (path ++ [spec.fname]) v = PResult.ok pv' := by
  have hnil := checkObjectFields_ok_fst_nil h
  have hfi := checkFields_fst_nil_all fields path hnil hmem
  cases hf : spec.fcheck (path ++ [spec.fname]) v with
  | ok pv' => exact ⟨pv', rfl⟩
  | err is =>
      have heq : fieldIssues fields path spec = is := fieldIssues_present_err hl hf
      rw [heq] at hfi
      exact absurd hfi (hne is hf)

theorem checkObjectFields_err_field {specs : List FieldSpec} {strict : Bool}
    {path : List String} {fields : List (String × JValue)}
    {spec : FieldSpec} {v : JValue} {is : List Issue}
    (hmem : spec ∈ specs) (hl : lookupKey fields spec.fname = some v)
    (hf : spec.fcheck (path ++ [spec.fname]) v = PResult.err is)
    (hne : is ≠ []) :
    ∃ is', checkObjectFields specs strict path fields = PResult.err is' := by
  obtain ⟨i, hi⟩ : ∃ i, i ∈ is := by
    cases is with
    | nil => exact absurd rfl hne
    | cons i t => exact ⟨i, List.mem_cons_self i t⟩
  have hfi : fieldIssues fields path spec = is := fieldIssues_present_err hl hf
  have hmemfst : i ∈ (checkFields fields path specs).1 := by
    apply checkFields_fst_mem fields path hmem
    rw [hfi]
    exact hi
  obtain ⟨is', heq, _⟩ :=
    checkObjectFields_err_of_issue specs strict path fields hmemfst
  exact ⟨is', heq⟩

theorem agentRouting_obj_ok {path : List String}
    {fields : List (String × JValue)} {pv : JValue}
    (h : AgentRouting path (JValue.obj fields) = PResult.ok pv) :
    RoutingConfig path (JValue.obj fields) = PResult.ok pv := by
  rcases zUnion2_ok h with hS | ⟨is, _, hRC⟩
  · have hval : SimpleRouting path (JValue.obj fields) =
        PResult.err (invalidType path) := rfl
    rw [hval] at hS
    cases hS
  · exact hRC

theorem agentRouting_obj_err {path : List String}
    {fields : List (String × JValue)} {is : List Issue}
    (hRC : RoutingConfig path (JValue.obj fields) = PResult.err is) :
    ∃ is', AgentRouting path (JValue.obj fields) = PResult.err is' :=
  ⟨_, zUnion2_err rfl hRC⟩

theorem routingConfig_fallback {path : List String}
    {fields : List (String × JValue)}
    (hstrat : lookupKey fields "strategy" = some (JValue.str "fallback")) :
    RoutingConfig path (JValue.obj fields) =
      checkObjectFields RoutingStrategyFallbackFields false path fields := by
  simp only [RoutingConfig, hstrat]
  rfl

theorem routingConfig_pattern {path : List String}
    {fields : List (String × JValue)}
    (hstrat : lookupKey fields "strategy" = some (JValue.str "pattern")) :
    RoutingConfig path (JValue.obj fields) =
      checkObjectFields RoutingStrategyPatternFields false path fields := by
  simp only [RoutingConfig, hstrat]
  rfl

theorem routingConfig_weighted {path : List String}
    {fields : List (String × JValue)}
    (hstrat : lookupKey fields "strategy" = some (JValue.str "weighted")) :
    RoutingConfig path (JValue.obj fields) =
      checkObjectFields RoutingStrategyWeightedFields false path fields := by
  simp only [RoutingConfig, hstrat]
  rfl

theorem routingConfig_round_robin {path : List String}
    {fields : List (String × JValue)}
    (hstrat : lookupKey fields "strategy" = some (JValue.str "round_robin")) :
    RoutingConfig path (JValue.obj fields) =
      checkObjectFields RoutingStrategyRoundRobinFields false path fields := by
  simp only [RoutingConfig, hstrat]
  rfl

theorem variantListField_nonempty {path : List String}
    {fields : List (String × JValue)} {pv : JValue} {xs : List JValue}
    {vFields : List FieldSpec} {key : String}
    (hRC : checkObjectFields vFields false path fields = PResult.ok pv)
    (hmem : (⟨key, true, zArray zString 1⟩ : FieldSpec) ∈ vFields)
    (hm : lookupKey fields key = some (JValue.arr xs)) : xs ≠ [] := by
  obtain ⟨pv', hf⟩ :=
    checkObjectFields_ok_field_ok hRC hmem hm
      (fun is hi => zArray_err_ne_nil
        (show zArray zString 1 (path ++ [key]) (JValue.arr xs) =
          PResult.err is from hi))
  intro hnil
  subst hnil
  have hf' : zArray zString 1 (path ++ [key]) (JValue.arr []) =
      PResult.ok pv' := hf
  exact zArray_ok_min hf' (by simp)

theorem variantListField_empty_err {path : List String}
    {fields : List (String × JValue)} {vFields : List FieldSpec} {key : String}
    (hmem : (⟨key, true, zArray zString 1⟩ : FieldSpec) ∈ vFields)
    (hm : lookupKey fields key = some (JValue.arr [])) :
    ∃ is, checkObjectFields vFields false path fields = PResult.err is := by
  have hf : zArray zString 1 (path ++ [key]) (JValue.arr []) =
      PResult.err [Issue.mk (path ++ [key]) "too_small" []] := rfl
  exact checkObjectFields_err_field hmem hm hf (by simp)

theorem weighted_weights_positive {path : List String}
    {fields : List (String × JValue)} {pv : JValue}
    {ws : List (String × JValue)}
    (hRC : checkObjectFields RoutingStrategyWeightedFields false path fields =
      PResult.ok pv)
    (hm : lookupKey fields "weights" = some (JValue.obj ws)) :
    ∀ kv ∈ ws, ∃ n, kv.2 = JValue.num n ∧ 0 < n := by
  have hmem : (⟨"weights", true, zRecord zPositiveNumber⟩ : FieldSpec) ∈
      RoutingStrategyWeightedFields := by
    simp [RoutingStrategyWeightedFields]
  obtain ⟨pv', hf⟩ :=
    checkObjectFields_ok_field_ok hRC hmem hm
      (fun is hi => zRecord_err_ne_nil
        (show zRecord zPositiveNumber (path ++ ["weights"]) (JValue.obj ws) =
          PResult.err is from hi))
  intro kv hkv
  cases hv : zPositiveNumber ((path ++ ["weights"]) ++ [kv.1]) kv.2 with
  | ok pvn => exact zPositiveNumber_ok hv
  | err is =>
      have hz := zRecord_ok_each hf kv hkv is hv
      exact absurd hz (zPositiveNumber_err_ne_nil hv)

theorem weighted_nonpositive_err {path : List String}
    {fields : List (String × JValue)} {ws : List (String × JValue)}
    {k0 : String} {n : Int}
    (hm : lookupKey fields "weights" = some (JValue.obj ws))
    (hkv : (k0, JValue.num n) ∈ ws) (hn : n ≤ 0) :
    ∃ is, checkObjectFields RoutingStrategyWeightedFields false path fields =
      PResult.err is := by
  have hmem : (⟨"weights", true, zRecord zPositiveNumber⟩ : FieldSpec) ∈
      RoutingStrategyWeightedFields := by
    simp [RoutingStrategyWeightedFields]
  have hvErr : zPositiveNumber ((path ++ ["weights"]) ++ [k0]) (JValue.num n) =
      PResult.err [Issue.mk ((path ++ ["weights"]) ++ [k0]) "too_small" []] := by
    simp only [zPositiveNumber]
    rw [if_neg (by omega)]
  obtain ⟨is', hrec⟩ := zRecord_err_of_val hkv hvErr (by simp)
  exact checkObjectFields_err_field hmem hm hrec (zRecord_err_ne_nil hrec)

/-- C8: every routing specification accepted by the validator has a non-empty
list in each list-bearing variant (the bare-list shorthand, fallback's and
round robin's `models`, pattern's `pattern`) and strictly positive values in
a weighted variant's `weights` map; and any routing specification violating
one of these bounds is rejected. -/
theorem routing_bounds :
    (∀ path xs pv, AgentRouting path (JValue.arr xs) = PResult.ok pv → xs ≠ [])
    ∧ (∀ path fields pv xs,
        lookupKey fields "strategy" = some (JValue.str "fallback") →
        AgentRouting path (JValue.obj fields) = PResult.ok pv →
        lookupKey fields "models" = some (JValue.arr xs) → xs ≠ [])
    ∧ (∀ path fields pv xs,
        lookupKey fields "strategy" = some (JValue.str "pattern") →
        AgentRouting path (JValue.obj fields) = PResult.ok pv →
        lookupKey fields "pattern" = some (JValue.arr xs) → xs ≠ [])
    ∧ (∀ path fields pv xs,
        lookupKey fields "strategy" = some (JValue.str "round_robin") →
        AgentRouting path (JValue.obj fields) = PResult.ok pv →
        lookupKey fields "models" = some (JValue.arr xs) → xs ≠ [])
    ∧ (∀ path fields pv ws,
        lookupKey fields "strategy" = some (JValue.str "weighted") →
        AgentRouting path (JValue.obj fields) = PResult.ok pv →
        lookupKey fields "weights" = some (JValue.obj ws) →
        ∀ kv ∈ ws, ∃ n, kv.2 = JValue.num n ∧ 0 < n)
    ∧ (∀ path, ∃ is, AgentRouting path (JValue.arr []) = PResult.err is)
    ∧ (∀ path fields,
        lookupKey fields "strategy" = some (JValue.str "fallback") →
        lookupKey fields "models" = some (JValue.arr []) →
        ∃ is, AgentRouting path (JValue.obj fields) = PResult.err is)
    ∧ (∀ path fields,
        lookupKey fields "strategy" = some (JValue.str "pattern") →
        lookupKey fields "pattern" = some (JValue.arr []) →
        ∃ is, AgentRouting path (JValue.obj fields) = PResult.err is)
    ∧ (∀ path fields,
        lookupKey fields "strategy" = some (JValue.str "round_robin") →
        lookupKey fields "models" = some (JValue.arr []) →
        ∃ is, AgentRouting path (JValue.obj fields) = PResult.err is)
    ∧ (∀ path fields ws k0 n,
        lookupKey fields "strategy" = some (JValue.str "weighted") →
        lookupKey fields "weights" = some (JValue.obj ws) →
        (k0, JValue.num n) ∈ ws → n ≤ 0 →
        ∃ is, AgentRouting path (JValue.obj fields) = PResult.err is) := by
  refine ⟨?_, ?_, ?_, ?_, ?_, ?_, ?_, ?_, ?_, ?_⟩
  · intro path xs pv h
    rcases zUnion2_ok h with hS | ⟨is, _, hRC⟩
    · intro hnil
      subst hnil
      have hS' : zArray zString 1 path (JValue.arr []) =
          PResult.ok pv := hS
      exact zArray_ok_min hS' (by simp)
    · have hval : RoutingConfig path (JValue.arr xs) =
          PResult.err (invalidType path) := rfl
      rw [hval] at hRC
      cases hRC
  · intro path fields pv xs hstrat h hm
    have hRC := agentRouting_obj_ok h
    rw [routingConfig_fallback hstrat] at hRC
    exact variantListField_nonempty hRC (by simp [RoutingStrategyFallbackFields]) hm
  · intro path fields pv xs hstrat h hm
    have hRC := agentRouting_obj_ok h
    rw [routingConfig_pattern hstrat] at hRC
    exact variantListField_nonempty hRC (by simp [RoutingStrategyPatternFields]) hm
  · intro path fields pv xs hstrat h hm
    have hRC := agentRouting_obj_ok h
    rw [routingConfig_round_robin hstrat] at hRC
    exact variantListField_nonempty hRC
      (by simp [RoutingStrategyRoundRobinFields]) hm
  · intro path fields pv ws hstrat h hm
    have hRC := agentRouting_obj_ok h
    rw [routingConfig_weighted hstrat] at hRC
    exact weighted_weights_positive hRC hm
  · intro path
    have hS : SimpleRouting path (JValue.arr []) =
        PResult.err [Issue.mk path "too_small" []] := rfl
    have hRC : RoutingConfig path (JValue.arr []) =
        PResult.err (invalidType path) := rfl
    exact ⟨_, zUnion2_err hS hRC⟩
  · intro path fields hstrat hm
    have hmem : (⟨"models", true, zArray zString 1⟩ : FieldSpec) ∈
        RoutingStrategyFallbackFields := by
      simp [RoutingStrategyFallbackFields]
    obtain ⟨is, hv⟩ := @variantListField_empty_err path fields
      RoutingStrategyFallbackFields "models" hmem hm
    exact agentRouting_obj_err ((routingConfig_fallback hstrat).trans hv)
  · intro path fields hstrat hm
    have hmem : (⟨"pattern", true, zArray zString 1⟩ : FieldSpec) ∈
        RoutingStrategyPatternFields := by
      simp [RoutingStrategyPatternFields]
    obtain ⟨is, hv⟩ := @variantListField_empty_err path fields
      RoutingStrategyPatternFields "pattern" hmem hm
    exact agentRouting_obj_err ((routingConfig_pattern hstrat).trans hv)
  · intro path fields hstrat hm
    have hmem : (⟨"models", true, zArray zString 1⟩ : FieldSpec) ∈
        RoutingStrategyRoundRobinFields := by
      simp [RoutingStrategyRoundRobinFields]
    obtain ⟨is, hv⟩ := @variantListField_empty_err path fields
      RoutingStrategyRoundRobinFields "models" hmem hm
    exact agentRouting_obj_err ((routingConfig_round_robin hstrat).trans hv)
  · intro path fields ws k0 n hstrat hm hkv hn
    obtain ⟨is, hv⟩ := @weighted_nonpositive_err path fields ws k0 n hm hkv hn
    exact agentRouting_obj_err ((routingConfig_weighted hstrat).trans hv)

theorem routing_bounds_witness :
    (lookupKey [("strategy", JValue.str "fallback"),
        ("models", JValue.arr [JValue.str "m"])] "strategy" =
      some (JValue.str "fallback") ∧
     AgentRouting [] (JValue.obj [("strategy", JValue.str "fallback"),
        ("models", JValue.arr [JValue.str "m"])]) =
      PResult.ok (JValue.obj [("strategy", JValue.str "fallback"),
        ("models", JValue.arr [JValue.str "m"])]) ∧
     lookupKey [("strategy", JValue.str "fallback"),
        ("models", JValue.arr [JValue.str "m"])] "models" =
      some (JValue.arr [JValue.str "m"]) ∧
     ([JValue.str "m"] : List JValue) ≠ []) ∧
    ∃ is, AgentRouting [] (JValue.arr []) = PResult.err is := by
  constructor
  · refine ⟨rfl, rfl, rfl, ?_⟩
    exact routing_bounds.2.1 [] [("strategy", JValue.str "fallback"),
      ("models", JValue.arr [JValue.str "m"])]
      (JValue.obj [("strategy", JValue.str "fallback"),
        ("models", JValue.arr [JValue.str "m"])])
      [JValue.str "m"] rfl rfl rfl
  · exact routing_bounds.2.2.2.2.2.1 []

/-- A deterministic rendering of an issue list, standing in for zod's
`error.message` (a serialization of the issues; its exact text is the
library's concern, its content is the issues). -/
def renderIssue (i : Issue) : String :=
  String.intercalate "." i.path ++ ": " ++ i.code

def renderIssues (issues : List Issue) : String :=
  String.intercalate "; " (issues.map renderIssue)

/-- The `ConfigError` of `src/config.ts`: a message, the offending file path
when known, and the zod issues for validation failures. -/
structure ConfigError where
  message : String
  path : Option String
  zodErrors : Option (List Issue)

/-- The `sources` record of a resolution: which file, if any, contributed to
each of the three layers (the `local` layer is named `loc`, `local` being a
reserved word). -/
structure Sources where
  global : Option String
  project : Option String
  loc : Option String

/-- `Object.keys(sources).length`: the number of provenance entries set. -/
def sourcesCount (s : Sources) : Nat :=
  (if s.global.isSome then 1 else 0) + (if s.project.isSome then 1 else 0) +
    (if s.loc.isSome then 1 else 0)

/-- The `ConfigLoadState` threaded by `loadConfig` (`src/config.ts`). -/
structure ConfigLoadState where
  mergedConfig : List (String × JValue)
  sources : Sources

structure LoadConfigResult where
  config : JValue
  sources : Sources

/-- Embeds `parseYamlFile`: the YAML library's outcome for a file is an
input (`Except.error` for a parse exception); a failure becomes the
`Failed to parse <path>: <message>` `ConfigError`. -/
def parseYamlFileE (filepath : String) (r : Except String JValue) :
    Except ConfigError JValue :=
  match r with
  | Except.ok v => Except.ok v
  | Except.error msg =>
      Except.error
        ⟨"Failed to parse " ++ filepath ++ ": " ++ msg, some filepath, none⟩

/-- Embeds `loadGlobalConfig` (`src/config.ts`): a found global file is
parsed; a plain-object result becomes the merged config and records
provenance, anything else leaves the state untouched. The discovered file
(path and raw parse outcome) is an input, file discovery being I/O. -/
def loadGlobalConfig (found : Option (String × Except String JValue))
    (state : ConfigLoadState) : Except ConfigError ConfigLoadState :=
  match found with
  | none => Except.ok state
  | some (globalPath, raw) =>
      match parseYamlFileE globalPath raw with
      | Except.error e => Except.error e
      | Except.ok globalConfig =>
          match asPlainObject globalConfig with
          | some fields =>
              Except.ok ⟨fields, { state.sources with global := some globalPath }⟩
          | none => Except.ok state

/-- Embeds `loadProjectConfig` (`src/config.ts`): a plain-object result is
deep-merged over the state and records provenance. -/
def loadProjectConfig (found : Option (String × Except String JValue))
    (state : ConfigLoadState) : Except ConfigError ConfigLoadState :=
  match found with
  | none => Except.ok state
  | some (projectPath, raw) =>
      match parseYamlFileE projectPath raw with
      | Except.error e => Except.error e
      | Except.ok projectConfig =>
          match asPlainObject projectConfig with
          | some fields =>
              Except.ok ⟨deepMerge state.mergedConfig fields,
                { state.sources with project := some projectPath }⟩
          | none => Except.ok state

/-- Embeds `loadLocalOverrides` (`src/config.ts`). -/
def loadLocalOverrides (found : Option (String × Except String JValue))
    (state : ConfigLoadState) : Except ConfigError ConfigLoadState :=
  match found with
  | none => Except.ok state
  | some (localPath, raw) =>
      match parseYamlFileE localPath raw with
      | Except.error e => Except.error e
      | Except.ok localConfig =>
          match asPlainObject localConfig with
          | some fields =>
              Except.ok ⟨deepMerge state.mergedConfig fields,
                { state.sources with loc := some localPath }⟩
          | none => Except.ok state

/-- Embeds `validateMergedConfig` (`src/config.ts`): when nothing was found
and nothing was merged it throws the not-found `ConfigError` naming both
searched directories, otherwise the merged object goes through the schema
and a failure carries the zod issues and the highest-precedence source
path. -/
def validateMergedConfig (state : ConfigLoadState)
    (projectDir globalDir : String) : Except ConfigError JValue :=
  if state.mergedConfig.length = 0 ∧ sourcesCount state.sources = 0 then
    Except.error
      ⟨"No lattice config found. Searched:\n  - " ++ projectDir ++
        "\n  - " ++ globalDir, some projectDir, none⟩
  else
    match latticeSafeParse (JValue.obj state.mergedConfig) with
    | PResult.err issues =>
        Except.error
          ⟨"Invalid lattice config: " ++ renderIssues issues,
            (state.sources.loc <|> state.sources.project <|> state.sources.global),
            some issues⟩
    | PResult.ok c => Except.ok c

/-- Embeds `loadConfig` (`src/config.ts`): global, project and local layers
folded in order, then validated. File discovery results are inputs. -/
def loadConfig (skipGlobal skipLocal : Bool)
    (globalFound projectFound localFound : Option (String × Except String JValue))
    (projectDir globalDir : String) : Except ConfigError LoadConfigResult :=
  let state0 : ConfigLoadState := ⟨[], ⟨none, none, none⟩⟩
  match (if skipGlobal then Except.ok state0
         else loadGlobalConfig globalFound state0) with
  | Except.error e => Except.error e
  | Except.ok state1 =>
      match loadProjectConfig projectFound state1 with
      | Except.error e => Except.error e
      | Except.ok state2 =>
          match (if skipLocal then Except.ok state2
                 else loadLocalOverrides localFound state2) with
          | Except.error e => Except.error e
          | Except.ok state3 =>
              match validateMergedConfig state3 projectDir globalDir with
              | Except.error e => Except.error e
              | Except.ok config => Except.ok ⟨config, state3.sources⟩

theorem asPlainObject_none_of_not {v : JValue} (h : isPlainObject v = false) :
    asPlainObject v = none := by
  cases v <;> simp_all [isPlainObject, asPlainObject]

theorem loadGlobalConfig_total (st : ConfigLoadState)
    {gF : Option (String × Except String JValue)}
    (hok : ∀ p r, gF = some (p, r) → ∃ v, r = Except.ok v) :
    ∃ st', loadGlobalConfig gF st = Except.ok st' ∧
      st'.sources.project = st.sources.project ∧
      st'.sources.loc = st.sources.loc ∧
      ((∃ p fl, gF = some (p, Except.ok (JValue.obj fl))) →
        ∃ q, st'.sources.global = some q) ∧
      ((¬ ∃ p fl, gF = some (p, Except.ok (JValue.obj fl))) → st' = st) := by
  cases gF with
  | none =>
      refine ⟨st, rfl, rfl, rfl, ?_, fun _ => rfl⟩
      rintro ⟨p, fl, h⟩
      cases h
  | some pr =>
      obtain ⟨p, r⟩ := pr
      obtain ⟨v, hv⟩ := hok p r rfl
      subst hv
      cases v with
      | obj fl =>
          refine ⟨⟨fl, { st.sources with global := some p }⟩, rfl, rfl, rfl,
            fun _ => ⟨p, rfl⟩, ?_⟩
          intro hnc
          exact absurd ⟨p, fl, rfl⟩ hnc
      | null =>
          refine ⟨st, rfl, rfl, rfl, ?_, fun _ => rfl⟩
          rintro ⟨q, fl, h⟩
          simp at h
      | bool b =>
          refine ⟨st, rfl, rfl, rfl, ?_, fun _ => rfl⟩
          rintro ⟨q, fl, h⟩
          simp at h
      | num n =>
          refine ⟨st, rfl, rfl, rfl, ?_, fun _ => rfl⟩
          rintro ⟨q, fl, h⟩
          simp at h
      | str s =>
          refine ⟨st, rfl, rfl, rfl, ?_, fun _ => rfl⟩
          rintro ⟨q, fl, h⟩
          simp at h
      | arr xs =>
          refine ⟨st, rfl, rfl, rfl, ?_, fun _ => rfl⟩
          rintro ⟨q, fl, h⟩
          simp at h

theorem loadProjectConfig_total (st : ConfigLoadState)
    {pF : Option (String × Except String JValue)}
    (hok : ∀ p r, pF = some (p, r) → ∃ v, r = Except.ok v) :
    ∃ st', loadProjectConfig pF st = Except.ok st' ∧
      st'.sources.global = st.sources.global ∧
      st'.sources.loc = st.sources.loc ∧
      ((∃ p fl, pF = some (p, Except.ok (JValue.obj fl))) →
        ∃ q, st'.sources.project = some q) ∧
      ((¬ ∃ p fl, pF = some (p, Except.ok (JValue.obj fl))) → st' = st) := by
  cases pF with
  | none =>
      refine ⟨st, rfl, rfl, rfl, ?_, fun _ => rfl⟩
      rintro ⟨p, fl, h⟩
      cases h
  | some pr =>
      obtain ⟨p, r⟩ := pr
      obtain ⟨v, hv⟩ := hok p r rfl
      subst hv
      cases v with
      | obj fl =>
          refine ⟨⟨deepMerge st.mergedConfig fl,
            { st.sources with project := some p }⟩, rfl, rfl, rfl,
            fun _ => ⟨p, rfl⟩, ?_⟩
          intro hnc
          exact absurd ⟨p, fl, rfl⟩ hnc
      | null =>
          refine ⟨st, rfl, rfl, rfl, ?_, fun _ => rfl⟩
          rintro ⟨q, fl, h⟩
          simp at h
      | bool b =>
          refine ⟨st, rfl, rfl, rfl, ?_, fun _ => rfl⟩
          rintro ⟨q, fl, h⟩
          simp at h
      | num n =>
          refine ⟨st, rfl, rfl, rfl, ?_, fun _ => rfl⟩
          rintro ⟨q, fl, h⟩
          simp at h
      | str s =>
          refine ⟨st, rfl, rfl, rfl, ?_, fun _ => rfl⟩
          rintro ⟨q, fl, h⟩
          simp at h
      | arr xs =>
          refine ⟨st, rfl, rfl, rfl, ?_, fun _ => rfl⟩
          rintro ⟨q, fl, h⟩
          simp at h

theorem loadLocalOverrides_total (st : ConfigLoadState)
    {lF : Option (String × Except String JValue)}
    (hok : ∀ p r, lF = some (p, r) → ∃ v, r = Except.ok v) :
    ∃ st', loadLocalOverrides lF st = Except.ok st' ∧
      st'.sources.global = st.sources.global ∧
      st'.sources.project = st.sources.project ∧
      ((∃ p fl, lF = some (p, Except.ok (JValue.obj fl))) →
        ∃ q, st'.sources.loc = some q) ∧
      ((¬ ∃ p fl, lF = some (p, Except.ok (JValue.obj fl))) → st' = st) := by
  cases lF with
  | none =>
      refine ⟨st, rfl, rfl, rfl, ?_, fun _ => rfl⟩
      rintro ⟨p, fl, h⟩
      cases h
  | some pr =>
      obtain ⟨p, r⟩ := pr
      obtain ⟨v, hv⟩ := hok p r rfl
      subst hv
      cases v with
      | obj fl =>
          refine ⟨⟨deepMerge st.mergedConfig fl,
            { st.sources with loc := some p }⟩, rfl, rfl, rfl,
            fun _ => ⟨p, rfl⟩, ?_⟩
          intro hnc
          exact absurd ⟨p, fl, rfl⟩ hnc
      | null =>
          refine ⟨st, rfl, rfl, rfl, ?_, fun _ => rfl⟩
          rintro ⟨q, fl, h⟩
          simp at h
      | bool b =>
          refine ⟨st, rfl, rfl, rfl, ?_, fun _ => rfl⟩
          rintro ⟨q, fl, h⟩
          simp at h
      | num n =>
          refine ⟨st, rfl, rfl, rfl, ?_, fun _ => rfl⟩
          rintro ⟨q, fl, h⟩
          simp at h
      | str s =>
          refine ⟨st, rfl, rfl, rfl, ?_, fun _ => rfl⟩
          rintro ⟨q, fl, h⟩
          simp at h
      | arr xs =>
          refine ⟨st, rfl, rfl, rfl, ?_, fun _ => rfl⟩
          rintro ⟨q, fl, h⟩
          simp at h

theorem sourcesCount_ne_zero_of_set {s : Sources}
    (h : (∃ q, s.global = some q) ∨ (∃ q, s.project = some q) ∨
      (∃ q, s.loc = some q)) : sourcesCount s ≠ 0 := by
  intro hc
  unfold sourcesCount at hc
  rcases h with ⟨q, hq⟩ | ⟨q, hq⟩ | ⟨q, hq⟩ <;> rw [hq] at hc <;> simp at hc

theorem validateMergedConfig_notFound (pd gd : String) :
    validateMergedConfig ⟨[], ⟨none, none, none⟩⟩ pd gd =
      Except.error ⟨"No lattice config found. Searched:\n  - " ++ pd ++
        "\n  - " ++ gd, some pd, none⟩ := by
  unfold validateMergedConfig
  rw [if_pos]
  exact ⟨rfl, rfl⟩

theorem validateMergedConfig_validation_branch {st : ConfigLoadState}
    {pd gd : String}
    (hc : ¬ (st.mergedConfig.length = 0 ∧ sourcesCount st.sources = 0)) :
    ∀ e, validateMergedConfig st pd gd = Except.error e →
      ∃ issues, e.zodErrors = some issues := by
  intro e h
  unfold validateMergedConfig at h
  rw [if_neg hc] at h
  cases hl : latticeSafeParse (JValue.obj st.mergedConfig) with
  | ok c =>
      rw [hl] at h
      cases h
  | err issues =>
      rw [hl] at h
      cases h
      exact ⟨issues, rfl⟩

/-- C6: when every found layer parses successfully, resolution fails with the
"no configuration found" error naming both searched directories exactly when
no layer contributed a plain-object source (the merged object then being
empty); when at least one layer contributed, the resolution proceeds to
schema validation, so any error it raises is a validation error carrying zod
issues. -/
theorem loadConfig_notFound_contract :
    ∀ gF pF lF (pd gd : String),
    (∀ p r, gF = some (p, r) → ∃ v, r = Except.ok v) →
    (∀ p r, pF = some (p, r) → ∃ v, r = Except.ok v) →
    (∀ p r, lF = some (p, r) → ∃ v, r = Except.ok v) →
    (((¬ ∃ p fl, gF = some (p, Except.ok (JValue.obj fl))) ∧
      (¬ ∃ p fl, pF = some (p, Except.ok (JValue.obj fl))) ∧
      (¬ ∃ p fl, lF = some (p, Except.ok (JValue.obj fl)))) →
      loadConfig false false gF pF lF pd gd =
        Except.error ⟨"No lattice config found. Searched:\n  - " ++ pd ++
          "\n  - " ++ gd, some pd, none⟩)
    ∧ (((∃ p fl, gF = some (p, Except.ok (JValue.obj fl))) ∨
        (∃ p fl, pF = some (p, Except.ok (JValue.obj fl))) ∨
        (∃ p fl, lF = some (p, Except.ok (JValue.obj fl)))) →
      ∀ e, loadConfig false false gF pF lF pd gd = Except.error e →
        ∃ issues, e.zodErrors = some issues) := by
  intro gF pF lF pd gd hgok hpok hlok
  obtain ⟨st1, hg, hg_p, hg_l, hgcon, hgnc⟩ :=
    loadGlobalConfig_total ⟨[], ⟨none, none, none⟩⟩ hgok
  obtain ⟨st2, hp, hp_g, hp_l, hpcon, hpnc⟩ := loadProjectConfig_total st1 hpok
  obtain ⟨st3, hl, hl_g, hl_p, hlcon, hlnc⟩ := loadLocalOverrides_total st2 hlok
  have hfalse : ¬ ((false : Bool) = true) := by simp
  have hrun : loadConfig false false gF pF lF pd gd =
      match validateMergedConfig st3 pd gd with
      | Except.error e => Except.error e
      | Except.ok config => Except.ok ⟨config, st3.sources⟩ := by
    simp only [loadConfig, if_neg hfalse, hg, hp, hl]
  constructor
  · rintro ⟨hng, hnp, hnl⟩
    have e3 := hlnc hnl
    have e2 := hpnc hnp
    have e1 := hgnc hng
    rw [e3, e2, e1, validateMergedConfig_notFound pd gd] at hrun
    exact hrun
  · intro hcon e herr
    have hset : (∃ q, st3.sources.global = some q) ∨
        (∃ q, st3.sources.project = some q) ∨
        (∃ q, st3.sources.loc = some q) := by
      rcases hcon with hg' | hp' | hl'
      · left
        obtain ⟨q, hq⟩ := hgcon hg'
        exact ⟨q, by rw [hl_g, hp_g, hq]⟩
      · right
        left
        obtain ⟨q, hq⟩ := hpcon hp'
        exact ⟨q, by rw [hl_p, hq]⟩
      · right
        right
        exact hlcon hl'
    have hcnt := sourcesCount_ne_zero_of_set hset
    have hcond : ¬ (st3.mergedConfig.length = 0 ∧
        sourcesCount st3.sources = 0) := fun hc => hcnt hc.2
    rw [hrun] at herr
    cases hv : validateMergedConfig st3 pd gd with
    | ok c =>
        rw [hv] at herr
        cases herr
    | error e' =>
        rw [hv] at herr
        cases herr
        exact validateMergedConfig_validation_branch hcond _ hv

theorem loadConfig_notFound_contract_witness :
    loadConfig false false none none none "/proj" "/glob" =
      Except.error ⟨"No lattice config found. Searched:\n  - " ++ "/proj" ++
        "\n  - " ++ "/glob", some "/proj", none⟩ := by
  have hok : ∀ p r, (none : Option (String × Except String JValue)) =
      some (p, r) → ∃ v, r = Except.ok v := by
    intro p r h
    cases h
  have hne : ¬ ∃ p fl, (none : Option (String × Except String JValue)) =
      some (p, Except.ok (JValue.obj fl)) := by
    rintro ⟨p, fl, h⟩
    cases h
  exact (loadConfig_notFound_contract none none none "/proj" "/glob"
    hok hok hok).1 ⟨hne, hne, hne⟩

/-- C7: a source file whose parse result is not a plain object (null from an
empty file, a scalar, an array) is silently treated as absent: the layer
step returns the state unchanged, so the provenance entry stays unset, no
error is raised, and the whole resolution behaves as if the file were
missing. -/
theorem nonobject_layer_ignored :
    ∀ (p : String) (v : JValue), isPlainObject v = false →
    (∀ st, loadGlobalConfig (some (p, Except.ok v)) st = Except.ok st)
    ∧ (∀ st, loadProjectConfig (some (p, Except.ok v)) st = Except.ok st)
    ∧ (∀ st, loadLocalOverrides (some (p, Except.ok v)) st = Except.ok st)
    ∧ (∀ pF lF pd gd,
        loadConfig false false (some (p, Except.ok v)) pF lF pd gd =
        loadConfig false false none pF lF pd gd)
    ∧ (∀ gF lF pd gd,
        loadConfig false false gF (some (p, Except.ok v)) lF pd gd =
        loadConfig false false gF none lF pd gd)
    ∧ (∀ gF pF pd gd,
        loadConfig false false gF pF (some (p, Except.ok v)) pd gd =
        loadConfig false false gF pF none pd gd) := by
  intro p v hv
  have hnone := asPlainObject_none_of_not hv
  have hG : ∀ st, loadGlobalConfig (some (p, Except.ok v)) st =
      Except.ok st := by
    intro st
    simp [loadGlobalConfig, parseYamlFileE, hnone]
  have hP : ∀ st, loadProjectConfig (some (p, Except.ok v)) st =
      Except.ok st := by
    intro st
    simp [loadProjectConfig, parseYamlFileE, hnone]
  have hL : ∀ st, loadLocalOverrides (some (p, Except.ok v)) st =
      Except.ok st := by
    intro st
    simp [loadLocalOverrides, parseYamlFileE, hnone]
  have hGn : ∀ st, loadGlobalConfig none st = Except.ok st := fun st => rfl
  have hPn : ∀ st, loadProjectConfig none st = Except.ok st := fun st => rfl
  have hLn : ∀ st, loadLocalOverrides none st = Except.ok st := fun st => rfl
  refine ⟨hG, hP, hL, ?_, ?_, ?_⟩
  · intro pF lF pd gd
    simp only [loadConfig, hG, hGn]
  · intro gF lF pd gd
    simp only [loadConfig, hP, hPn]
  · intro gF pF pd gd
    simp only [loadConfig, hL, hLn]

theorem nonobject_layer_ignored_witness :
    isPlainObject JValue.null = false ∧
    loadConfig false false none (some ("/proj/lattice.yaml", Except.ok JValue.null))
      none "/proj" "/glob" =
      loadConfig false false none none none "/proj" "/glob" := by
  refine ⟨rfl, ?_⟩
  exact (nonobject_layer_ignored "/proj/lattice.yaml" JValue.null rfl).2.2.2.2.1
    none none "/proj" "/glob"

/-- The `ValidationResult` union of `src/config.ts`. -/
inductive ValidationResult where
  | success (config : JValue)
  | failure (error : String) (zodErrors : Option (List Issue))

/-- Embeds `parseConfigString` (`src/config.ts`): the YAML library's outcome
for the input string is a parameter; a parse exception becomes the thrown
`Invalid YAML syntax` `ConfigError`, a schema failure the thrown
`Invalid lattice config` `ConfigError` carrying the zod issues. -/
def parseConfigString (parseResult : Except String JValue)
    (filepath : Option String) : Except ConfigError JValue :=
  match parseResult with
  | Except.error msg =>
      Except.error ⟨"Invalid YAML syntax: " ++ msg, filepath, none⟩
  | Except.ok parsed =>
      match latticeSafeParse parsed with
      | PResult.err issues =>
          Except.error ⟨"Invalid lattice config: " ++ renderIssues issues,
            filepath, some issues⟩
      | PResult.ok c => Except.ok c

/-- Embeds `validateConfig` (`src/config.ts`): the result-returning sibling
of `parseConfigString`; it returns a failure record instead of throwing. -/
def validateConfig (parseResult : Except String JValue) : ValidationResult :=
  match parseResult with
  | Except.error msg =>
      ValidationResult.failure ("Invalid YAML syntax: " ++ msg) none
  | Except.ok parsed =>
      match latticeSafeParse parsed with
      | PResult.err issues =>
          ValidationResult.failure (renderIssues issues) (some issues)
      | PResult.ok c => ValidationResult.success c

/-- C5: `validateConfig` is a total function of the decoded input: a YAML
parse exception yields a failure result tagged `Invalid YAML syntax`, a
well-formed but schema-invalid input yields a failure result carrying the
zod issues, and a valid input yields a success result with the validated
configuration; no case raises. -/
theorem validateConfig_total_contract (parseResult : Except String JValue) :
    (∀ msg, parseResult = Except.error msg →
      validateConfig parseResult =
        ValidationResult.failure ("Invalid YAML syntax: " ++ msg) none)
    ∧ (∀ v issues, parseResult = Except.ok v →
      latticeSafeParse v = PResult.err issues →
      validateConfig parseResult =
        ValidationResult.failure (renderIssues issues) (some issues))
    ∧ (∀ v c, parseResult = Except.ok v →
      latticeSafeParse v = PResult.ok c →
      validateConfig parseResult = ValidationResult.success c) := by
  refine ⟨?_, ?_, ?_⟩
  · intro msg h
    subst h
    rfl
  · intro v issues h hs
    subst h
    simp [validateConfig, hs]
  · intro v c h hs
    subst h
    simp [validateConfig, hs]

theorem validateConfig_total_contract_witness :
    ((Except.ok (JValue.obj [("name", JValue.str "test")]) :
        Except String JValue) =
      Except.ok (JValue.obj [("name", JValue.str "test")]) ∧
     latticeSafeParse (JValue.obj [("name", JValue.str "test")]) =
      PResult.ok (JValue.obj [("name", JValue.str "test")])) ∧
    validateConfig (Except.ok (JValue.obj [("name", JValue.str "test")])) =
      ValidationResult.success (JValue.obj [("name", JValue.str "test")]) := by
  refine ⟨⟨rfl, rfl⟩, ?_⟩
  exact (validateConfig_total_contract
    (Except.ok (JValue.obj [("name", JValue.str "test")]))).2.2 _ _ rfl rfl

/-- C10: the throwing entry point `parseConfigString` and the
result-returning entry point `validateConfig` agree on every input:
`validateConfig` succeeds with a configuration exactly when
`parseConfigString` returns it, each YAML-syntax failure of one is a
YAML-syntax failure of the other, each schema failure of one is a schema
failure of the other with the same issues, and every thrown `ConfigError`
corresponds to a failure result. -/
theorem parseConfigString_validateConfig_agree
    (parseResult : Except String JValue) (filepath : Option String) :
    (∀ c, parseConfigString parseResult filepath = Except.ok c ↔
      validateConfig parseResult = ValidationResult.success c)
    ∧ (∀ msg, parseResult = Except.error msg →
      parseConfigString parseResult filepath =
        Except.error ⟨"Invalid YAML syntax: " ++ msg, filepath, none⟩ ∧
      validateConfig parseResult =
        ValidationResult.failure ("Invalid YAML syntax: " ++ msg) none)
    ∧ (∀ v issues, parseResult = Except.ok v →
      latticeSafeParse v = PResult.err issues →
      parseConfigString parseResult filepath =
        Except.error ⟨"Invalid lattice config: " ++ renderIssues issues,
          filepath, some issues⟩ ∧
      validateConfig parseResult =
        ValidationResult.failure (renderIssues issues) (some issues))
    ∧ (∀ e, parseConfigString parseResult filepath = Except.error e →
      ∃ msg zE, validateConfig parseResult =
        ValidationResult.failure msg zE) := by
  refine ⟨?_, ?_, ?_, ?_⟩
  · intro c
    cases parseResult with
    | error msg =>
        constructor
        · intro h
          cases h
        · intro h
          cases h
    | ok v =>
        cases hs : latticeSafeParse v with
        | err issues =>
            constructor
            · intro h
              simp [parseConfigString, hs] at h
            · intro h
              simp [validateConfig, hs] at h
        | ok c' =>
            constructor
            · intro h
              simp only [parseConfigString, hs] at h
              cases h
              simp [validateConfig, hs]
            · intro h
              simp only [validateConfig, hs] at h
              cases h
              simp [parseConfigString, hs]
  · intro msg h
    subst h
    exact ⟨rfl, rfl⟩
  · intro v issues h hs
    subst h
    exact ⟨by simp [parseConfigString, hs], by simp [validateConfig, hs]⟩
  · intro e h
    cases parseResult with
    | error msg => exact ⟨"Invalid YAML syntax: " ++ msg, none, rfl⟩
    | ok v =>
        cases hs : latticeSafeParse v with
        | err issues =>
            exact ⟨renderIssues issues, some issues, by simp [validateConfig, hs]⟩
        | ok c =>
            simp only [parseConfigString, hs] at h
            cases h

theorem parseConfigString_validateConfig_agree_witness :
    (parseConfigString (Except.ok (JValue.obj [("name", JValue.str "test")]))
        none = Except.ok (JValue.obj [("name", JValue.str "test")]) ↔
      validateConfig (Except.ok (JValue.obj [("name", JValue.str "test")])) =
        ValidationResult.success (JValue.obj [("name", JValue.str "test")])) ∧
    ((Except.error "bad" : Except String JValue) = Except.error "bad" ∧
      parseConfigString (Except.error "bad") none =
        Except.error ⟨"Invalid YAML syntax: " ++ "bad", none, none⟩ ∧
      validateConfig (Except.error "bad") =
        ValidationResult.failure ("Invalid YAML syntax: " ++ "bad") none) := by
  constructor
  · exact (parseConfigString_validateConfig_agree
      (Except.ok (JValue.obj [("name", JValue.str "test")])) none).1 _
  · refine ⟨rfl, ?_⟩
    exact (parseConfigString_validateConfig_agree
      (Except.error "bad") none).2.1 "bad" rfl

/-- Modelled from the spec: the repository declares the burst routing
strategy only as a schema (`RoutingStrategyBurst` in `src/schema.ts`); no
routing-engine implementation exists in the source tree. The burst variant's
data, following the schema fields `iterate`, `final`, `burst_size`,
`final_trigger`. -/
structure BurstRouting where
  iterate : String
  final : String
  burst_size : Nat
  final_trigger : Option String

/-- Modelled from the spec: the per-agent burst routing state, "a call
counter local to the current burst". -/
structure BurstState where
  counter : Nat

/-- Modelled from the spec (§4.4 Burst): while the counter is below
`burst_size` the selection is `iterate` and the counter increments once per
call; once the threshold is reached the selection is `final` and the counter
no longer increments, until an explicit trigger or external reset. -/
def burstSelect (cfg : BurstRouting) (st : BurstState) : String × BurstState :=
  if st.counter < cfg.burst_size then
    (cfg.iterate, ⟨st.counter + 1⟩)
  else
    (cfg.final, st)

/-- The state after `n` calls from a freshly initialized state. -/
def burstRun (cfg : BurstRouting) : Nat → BurstState
  | 0 => ⟨0⟩
  | n + 1 => (burstSelect cfg (burstRun cfg n)).2

/-- The model selected by call `n + 1` (zero-indexed `n`). -/
def burstSelection (cfg : BurstRouting) (n : Nat) : String :=
  (burstSelect cfg (burstRun cfg n)).1

/-- The burst specification of the spec's example scenario. -/
def burstExample : BurstRouting :=
  ⟨"ollama/llama3.1:8b", "anthropic/claude-opus-4-5", 5, none⟩

theorem burstRun_counter (cfg : BurstRouting) (n : Nat) :
    (burstRun cfg n).counter = min n cfg.burst_size := by
  induction n with
  | zero => simp [burstRun]
  | succ n ih =>
      simp only [burstRun, burstSelect]
      by_cases h : (burstRun cfg n).counter < cfg.burst_size
      · rw [if_pos h]
        show (burstRun cfg n).counter + 1 = min (n + 1) cfg.burst_size
        rw [ih] at h ⊢
        omega
      · rw [if_neg h]
        show (burstRun cfg n).counter = min (n + 1) cfg.burst_size
        rw [ih] at h ⊢
        omega

/-- C9: the example burst specification validates against the routing schema,
and with a freshly initialized state the selection function returns the
iterate model on calls 1 through 5 and the final model on every subsequent
call (no trigger or reset being modelled as occurring). -/
theorem burst_five_then_final :
    AgentRouting [] (JValue.obj
      [("strategy", JValue.str "burst"),
       ("iterate", JValue.str "ollama/llama3.1:8b"),
       ("final", JValue.str "anthropic/claude-opus-4-5"),
       ("burst_size", JValue.num 5)]) =
      PResult.ok (JValue.obj
        [("strategy", JValue.str "burst"),
         ("iterate", JValue.str "ollama/llama3.1:8b"),
         ("final", JValue.str "anthropic/claude-opus-4-5"),
         ("burst_size", JValue.num 5)]) ∧
    ∀ n : Nat, burstSelection burstExample n =
      if n < 5 then "ollama/llama3.1:8b" else "anthropic/claude-opus-4-5" := by
  constructor
  · rfl
  · intro n
    unfold burstSelection burstSelect
    rw [burstRun_counter]
    by_cases h : n < 5
    · rw [if_pos (by simp [burstExample]; omega), if_pos h]
      rfl
    · rw [if_neg (by simp [burstExample]; omega), if_neg h]
      rfl
